import Mathlib

/-!
Verification of the flat-manager job-orchestration core (src/jobs.rs,
src/models.rs) against its natural-language specification.

The Rust code is shallowly embedded: database rows become Lean structures,
SQL queries over in-memory lists of rows, subprocess and filesystem effects
become explicit environment records describing the outcomes of the external
calls, and the actix actors (JobQueue / JobExecutor) become an explicit
labelled transition system.  Machine integers (i16/i32 status and id
columns) are modelled as `Int`; none of the embedded arithmetic can
overflow in the modelled ranges.
-/

namespace FlatManager

/-- An inner JSON value: a string leaf or a flat object with string leaves. -/
inductive JVal where
  | str (s : String) : JVal
  | obj (fields : List (String × String)) : JVal
deriving DecidableEq, Repr

/-- A minimal JSON value type standing for `serde_json::Value` as used by
jobs.rs.  The embedded code only ever constructs null, strings and
objects of depth at most two with string leaves (`json!(e.to_string())`,
`json!(\x7b\x7d)`, and `json!(\x7b "refs": commits \x7d)` with
`commits : HashMap<String, String>`), so `Json` covers exactly those
shapes; job `contents` payloads are never inspected directly but passed
to abstract decode functions. -/
inductive Json where
  | null : Json
  | str (s : String) : Json
  | obj (fields : List (String × JVal)) : Json
deriving DecidableEq, Repr

/-- Job status enum.  Modelled from the spec: the `JobStatus` declaration
lives in models.rs outside the provided sources; the spec lists the states
New, Started, Ended, Broken with transitions New→Started→\x7bEnded,Broken\x7d, and
jobs.rs casts them with `as i16`, so the discriminants are the declaration
order 0,1,2,3. -/
inductive JobStatus where
  | new : JobStatus
  | started : JobStatus
  | ended : JobStatus
  | broken : JobStatus
deriving DecidableEq, Repr

/-- The i16 database code of a job status (`JobStatus::… as i16`). -/
def JobStatus.toDb : JobStatus → Int
  | .new => 0
  | .started => 1
  | .ended => 2
  | .broken => 3

/-- A row of the `jobs` table: `jobs(id, kind, status, contents, results)`. -/
structure JobRow where
  id : Int
  kind : Int
  status : Int
  contents : Json
  results : Json
deriving DecidableEq, Repr

/-- A row of the `job_dependencies_with_status` view: for a dependency edge
job → dependency, `dependant_status` is the status of the dependency job. -/
structure DepRow where
  job_id : Int
  dependant_status : Int
deriving DecidableEq, Repr

/-- The slice of database state the Scheduler (`process_one_job`) touches. -/
structure SchedulerDb where
  jobs : List JobRow
  deps : List DepRow
deriving DecidableEq, Repr

/-- The anti-join filter of `process_one_job`: a dependency row blocks job
`jid` when `job_dependencies_with_status::job_id.eq(jobs::id)` and
`dependant_status.le(JobStatus::Started as i16)`. -/
def depBlocks (jid : Int) (e : DepRow) : Bool :=
  e.job_id == jid && e.dependant_status ≤ JobStatus.started.toDb

/-- The eligibility filter of the scheduler query: status is `New` and
`not(exists(…))` a blocking dependency row. -/
def eligibleJob (deps : List DepRow) (j : JobRow) : Bool :=
  j.status == JobStatus.new.toDb && !(deps.any (depBlocks j.id))

/-- `get_result` of the filtered query: some matching row, `NotFound` when
none matches.  The SQL row order is arbitrary; the embedding fixes one
order (list order) and returns the first match. -/
def findNewJob (db : SchedulerDb) : Option JobRow :=
  db.jobs.find? (eligibleJob db.deps)

/-- The claiming update: `update(jobs).filter(id.eq(new_job.id))
.set(status.eq(Started))`. -/
def setJobStarted (jobs : List JobRow) (jid : Int) : List JobRow :=
  jobs.map (fun j => if j.id == jid then { j with status := JobStatus.started.toDb } else j)

/-- `process_one_job`'s claiming transaction (jobs.rs lines 458–498),
without the subsequent `handle_job` call: select one eligible job and mark
it Started in the same transaction.  Returns the database after the
transaction, the claimed job row as returned by the update (status already
Started), and the function's boolean result (`true` iff a job was found). -/
def process_one_job (db : SchedulerDb) : SchedulerDb × Option JobRow × Bool :=
  match findNewJob db with
  | some j =>
      ({ db with jobs := setJobStarted db.jobs j.id },
       some { j with status := JobStatus.started.toDb },
       true)
  | none => (db, none, false)

/-- Rows changed between two job lists of equal length (pairs that differ). -/
def changedRows (old new : List JobRow) : Nat :=
  ((old.zip new).filter (fun p => decide (p.1 ≠ p.2))).length

/-- Build repo state.  Modelled from the spec: `RepoState` and its
`from_db`/`to_db`/`same_state_as` are declared in models.rs outside the
provided sources (the provided models.rs predates jobs.rs); the spec gives
`repo_state ∈ \x7bVerifying, Ready, Failed(reason)\x7d`, "persisted as a small
integer code plus an optional free-text reason column", so codes follow
declaration order 0,1,2 and `Failed` carries the reason column. -/
inductive RepoState where
  | verifying : RepoState
  | ready : RepoState
  | failed (reason : String) : RepoState
deriving DecidableEq, Repr

/-- Modelled from the spec: encode a repo state to the two DB columns. -/
def RepoState.to_db : RepoState → Int × Option String
  | .verifying => (0, none)
  | .ready => (1, none)
  | .failed r => (2, some r)

/-- Modelled from the spec: decode the two DB columns to a repo state. -/
def RepoState.from_db (val : Int) (reason : Option String) : RepoState :=
  if val = 0 then .verifying
  else if val = 1 then .ready
  else .failed (reason.getD "")

/-- Modelled from the spec: state comparison ignoring the Failed reason. -/
def RepoState.same_state_as : RepoState → RepoState → Bool
  | .verifying, .verifying => true
  | .ready, .ready => true
  | .failed _, .failed _ => true
  | _, _ => false

/-- Build published state.  Modelled from the spec, like `RepoState`:
`published_state ∈ \x7bUnpublished, Publishing, Published, Failed(reason)\x7d`,
codes 0,1,2,3 in declaration order. -/
inductive PublishedState where
  | unpublished : PublishedState
  | publishing : PublishedState
  | published : PublishedState
  | failed (reason : String) : PublishedState
deriving DecidableEq, Repr

/-- Modelled from the spec: encode a published state to the two DB columns. -/
def PublishedState.to_db : PublishedState → Int × Option String
  | .unpublished => (0, none)
  | .publishing => (1, none)
  | .published => (2, none)
  | .failed r => (3, some r)

/-- Modelled from the spec: decode the two DB columns to a published state. -/
def PublishedState.from_db (val : Int) (reason : Option String) : PublishedState :=
  if val = 0 then .unpublished
  else if val = 1 then .publishing
  else if val = 2 then .published
  else .failed (reason.getD "")

/-- Modelled from the spec: state comparison ignoring the Failed reason. -/
def PublishedState.same_state_as : PublishedState → PublishedState → Bool
  | .unpublished, .unpublished => true
  | .publishing, .publishing => true
  | .published, .published => true
  | .failed _, .failed _ => true
  | _, _ => false

/-- A row of the `builds` table with the five columns jobs.rs reads and
writes (`id`, `repo_state`, `repo_state_reason`, `published_state`,
`published_state_reason`).  The `Build` struct in the provided models.rs
predates jobs.rs and lacks the reason columns; the row here follows the
columns jobs.rs itself names. -/
structure BuildRow where
  id : Int
  repo_state : Int
  repo_state_reason : Option String
  published_state : Int
  published_state_reason : Option String
deriving DecidableEq, Repr

/-- The diesel errors produced inside the two state-update transactions. -/
inductive DieselError where
  | notFound : DieselError
  | rollbackTransaction : DieselError
deriving DecidableEq, Repr

/-- Modelled from the spec: the `?` operator on the transaction result
converts the `DieselError` into a `JobError` (the `From` impl lives in the
missing errors.rs); only the fact that the job result becomes an error is
specified, so the message is the error's name. -/
def dieselErrorMessage : DieselError → String
  | .notFound => "NotFound"
  | .rollbackTransaction => "RollbackTransaction"

/-- `builds::table.filter(builds::id.eq(bid)).get_result(conn)`. -/
def findBuild (builds : List BuildRow) (bid : Int) : Option BuildRow :=
  builds.find? (fun b => b.id == bid)

/-- `diesel::update(builds::table).filter(builds::id.eq(bid))
.set((repo_state, repo_state_reason))`. -/
def setRepoState (builds : List BuildRow) (bid : Int) (val : Int)
    (reason : Option String) : List BuildRow :=
  builds.map (fun b =>
    if b.id == bid then { b with repo_state := val, repo_state_reason := reason } else b)

/-- `diesel::update(builds::table).filter(builds::id.eq(bid))
.set((published_state, published_state_reason))`. -/
def setPublishedState (builds : List BuildRow) (bid : Int) (val : Int)
    (reason : Option String) : List BuildRow :=
  builds.map (fun b =>
    if b.id == bid then
      { b with published_state := val, published_state_reason := reason }
    else b)

/-- `let new_repo_state = match &res \x7b Ok(_) => Ready, Err(e) =>
Failed(e.to_string()) \x7d` in `handle_commit_job`. -/
def commitNewState (res : Except String Json) : RepoState :=
  match res with
  | .ok _ => .ready
  | .error e => .failed e

/-- `let new_published_state = match &res \x7b Ok(_) => Published, Err(e) =>
Failed(e.to_string()) \x7d` in `handle_publish_job`. -/
def publishNewState (res : Except String Json) : PublishedState :=
  match res with
  | .ok _ => .published
  | .error e => .failed e

/-- The tail of `handle_commit_job` (jobs.rs lines 296–320): given the
pipeline's result `res`, run the state-update transaction — re-read the
Build row, require its repo state to be Verifying, else roll back — then
apply `?` to the transaction result and return.  Returns the builds table
after the call and the function's overall result. -/
def handle_commit_job_update (builds : List BuildRow) (bid : Int)
    (res : Except String Json) : List BuildRow × Except String Json :=
  let new_repo_state := commitNewState res
  match findBuild builds bid with
  | none => (builds, .error (dieselErrorMessage .notFound))
  | some current_build =>
    let current_repo_state :=
      RepoState.from_db current_build.repo_state current_build.repo_state_reason
    if ! current_repo_state.same_state_as RepoState.verifying then
      (builds, .error (dieselErrorMessage .rollbackTransaction))
    else
      (setRepoState builds bid (RepoState.to_db new_repo_state).1
        (RepoState.to_db new_repo_state).2, res)

/-- The tail of `handle_publish_job` (jobs.rs lines 389–415), analogous to
`handle_commit_job_update` with the Publishing precondition. -/
def handle_publish_job_update (builds : List BuildRow) (bid : Int)
    (res : Except String Json) : List BuildRow × Except String Json :=
  let new_published_state := publishNewState res
  match findBuild builds bid with
  | none => (builds, .error (dieselErrorMessage .notFound))
  | some current_build =>
    let current_published_state :=
      PublishedState.from_db current_build.published_state
        current_build.published_state_reason
    if ! current_published_state.same_state_as PublishedState.publishing then
      (builds, .error (dieselErrorMessage .rollbackTransaction))
    else
      (setPublishedState builds bid (PublishedState.to_db new_published_state).1
        (PublishedState.to_db new_published_state).2, res)

/-- Rust's `str::trim`: remove leading and trailing whitespace.  Defined
directly over the character list so that it is kernel-computable. -/
def rustTrim (s : String) : String :=
  ⟨((s.data.dropWhile Char.isWhitespace).reverse.dropWhile Char.isWhitespace).reverse⟩

/-- Helper for `rustSplit`: split a character list at a separator,
accumulating the current (reversed) segment. -/
def splitChar (sep : Char) : List Char → List Char → List (List Char)
  | [], cur => [cur.reverse]
  | c :: rest, cur =>
    if c = sep then cur.reverse :: splitChar sep rest []
    else splitChar sep rest (c :: cur)

/-- Rust's `str::split(sep)` collected to a vector (as in
`ref_name.split('/').collect()`). -/
def rustSplit (sep : Char) (s : String) : List String :=
  (splitChar sep s.data []).map (fun l => ⟨l⟩)

/-- Rust's `str::starts_with`. -/
def rustStartsWith (s pre : String) : Bool :=
  pre.data.isPrefixOf s.data

/-- The `BuildRef` row from models.rs. -/
structure BuildRef where
  id : Int
  build_id : Int
  ref_type : Int
  ref_name : String
  commit : String
deriving DecidableEq, Repr

/-- The relevant fields of `app::Config` as consumed by jobs.rs; paths are
modelled as strings with `PathBuf::join` as `… ++ "/" ++ …`. -/
structure Config where
  repo_path : String
  build_repo_base_path : String
  base_url : String
  collection_id : Option String
  gpg_homedir : Option String
  build_gpg_key : Option String
deriving DecidableEq, Repr

/-- An external command: program name plus argument list. -/
structure Cmd where
  program : String
  args : List String
deriving DecidableEq, Repr

/-- The captured output of `Command::output()` (used by
`parse_ostree_ref`): exit success flag, stdout and stderr. -/
structure OutputRes where
  success : Bool
  stdout : String
  stderr : String
deriving DecidableEq, Repr

/-- The result of a Rust function that can also panic: `ok`/`err` mirror
`Result`, `panicked` marks an unwinding panic (e.g. out-of-bounds index). -/
inductive RResult (α : Type) where
  | ok (v : α) : RResult α
  | err (msg : String) : RResult α
  | panicked : RResult α
deriving DecidableEq, Repr

/-- Environment describing the outcomes of the external effects the commit
pipeline performs.  `run` is the observable behaviour of `run_command`
(spawn failure as `.error msg`, otherwise exit success, combined log,
stderr); `output` is `Command::output()`; io errors carry the message the
corresponding `?` conversion would produce. -/
structure CommitEnv where
  initRepo : String → Except String Unit
  run : Cmd → Except String (Bool × String × String)
  output : Cmd → Except String OutputRes
  createFile : String → Except String Unit
  writeAll : String → String → Except String Unit
  removeDir : String → Except String Unit

/-- The per-ref `flatpak build-commit-from` invocation built in
`do_commit_build_refs` (jobs.rs lines 183–211), including the doubled `==`
of the gpg arguments exactly as in the source. -/
def commitFromCmd (cfg : Config) (endoflife : Option String)
    (build_repo_path src_repo_arg : String) (build_ref : BuildRef) : Cmd :=
  ⟨"flatpak",
   ["build-commit-from", "--timestamp=NOW", "--no-update-summary", "--untrusted",
    "--force", "--disable-fsync"]
   ++ (match cfg.gpg_homedir with
       | some gpg_homedir => ["--gpg-homedir==" ++ gpg_homedir]
       | none => [])
   ++ (match cfg.build_gpg_key with
       | some key => ["--gpg-sign==" ++ key]
       | none => [])
   ++ (match endoflife with
       | some endoflife => ["--end-of-life=" ++ endoflife]
       | none => [])
   ++ [src_repo_arg, "--src-ref=" ++ build_ref.commit, build_repo_path,
       build_ref.ref_name]⟩

/-- The `ostree rev-parse` invocation of `parse_ostree_ref`. -/
def revParseCmd (build_repo_path ref_name : String) : Cmd :=
  ⟨"ostree", ["rev-parse", "--repo=" ++ build_repo_path, ref_name]⟩

/-- `parse_ostree_ref` (jobs.rs lines 259–278). -/
def parse_ostree_ref (env : CommitEnv) (build_repo_path ref_name : String) :
    Except String String :=
  match env.output (revParseCmd build_repo_path ref_name) with
  | .ok output =>
      if output.success then .ok (rustTrim output.stdout)
      else .error ("Can't find commit for ref " ++ ref_name ++ " build refs: "
        ++ rustTrim output.stderr)
  | .error e => .error ("Can't find commit for ref " ++ ref_name ++ " build refs: " ++ e)

/-- The body of the flatpakref pointer file written for `app/` refs
(jobs.rs lines 225–236). -/
def flatpakrefContent (cfg : Config) (build_id : Int) (name branch : String) : String :=
  "\n[Flatpak Ref]\nName=" ++ name ++ "\nBranch=" ++ branch ++ "\nUrl="
    ++ cfg.base_url ++ "/build-repo/" ++ toString build_id
    ++ "\nRuntimeRepo=https://dl.flathub.org/repo/flathub.flatpakrepo\nIsRuntime=false\n"

/-- One iteration of the ref loop of `do_commit_build_refs` (jobs.rs lines
179–238): run build-commit-from, abort with ref name and trimmed stderr on
non-zero exit, resolve the new commit, and for `app/` refs write the
pointer file — indexing the split ref name at 1 and 3 without a length
check (a panic when out of bounds).  Returns the (ref name, commit) pair
recorded into the commits map and the commands run. -/
def commitStep (env : CommitEnv) (cfg : Config) (endoflife : Option String)
    (build_id : Int) (build_repo_path src_repo_arg : String) (build_ref : BuildRef) :
    RResult (String × String) × List Cmd :=
  let cmd := commitFromCmd cfg endoflife build_repo_path src_repo_arg build_ref
  match env.run cmd with
  | .error e => (.err e, [cmd])
  | .ok (success, _log, stderr) =>
    if !success then
      (.err ("Failed to build commit for ref " ++ build_ref.ref_name ++ ": "
        ++ rustTrim stderr), [cmd])
    else
      let pcmd := revParseCmd build_repo_path build_ref.ref_name
      match parse_ostree_ref env build_repo_path build_ref.ref_name with
      | .error e => (.err e, [cmd, pcmd])
      | .ok commit =>
        if rustStartsWith build_ref.ref_name "app/" then
          let parts := rustSplit '/' build_ref.ref_name
          match parts[1]? with
          | none => (.panicked, [cmd, pcmd])
          | some p1 =>
            let fpath := build_repo_path ++ "/" ++ p1 ++ ".flatpakref"
            match env.createFile fpath with
            | .error e => (.err e, [cmd, pcmd])
            | .ok _ =>
              match parts[3]? with
              | none => (.panicked, [cmd, pcmd])
              | some p3 =>
                match env.writeAll fpath (flatpakrefContent cfg build_id p1 p3) with
                | .error e => (.err e, [cmd, pcmd])
                | .ok _ => (.ok (build_ref.ref_name, commit), [cmd, pcmd])
        else (.ok (build_ref.ref_name, commit), [cmd, pcmd])

/-- The ref loop of `do_commit_build_refs`: iterate `commitStep` over the
refs, accumulating the commits map (insertion order) and the command trace;
any step failure short-circuits the remaining refs. -/
def commitLoop (env : CommitEnv) (cfg : Config) (endoflife : Option String)
    (build_id : Int) (build_repo_path src_repo_arg : String) :
    List BuildRef → List (String × String) → RResult (List (String × String)) × List Cmd
  | [], commits => (.ok commits, [])
  | build_ref :: rest, commits =>
    match commitStep env cfg endoflife build_id build_repo_path src_repo_arg build_ref with
    | (.ok nc, tr) =>
      let r := commitLoop env cfg endoflife build_id build_repo_path src_repo_arg
        rest (commits ++ [nc])
      (r.1, tr ++ r.2)
    | (.err e, tr) => (.err e, tr)
    | (.panicked, tr) => (.panicked, tr)

/-- The `flatpak build-update-repo` invocation after the ref loop. -/
def updateRepoCmd (build_repo_path : String) : Cmd :=
  ⟨"flatpak", ["build-update-repo", build_repo_path]⟩

/-- The observable outcome of `do_commit_build_refs`: overall result, the
external commands run in order, and whether the upload staging directory
was removed (`remove_dir_all` reached and succeeded). -/
structure CommitOutcome where
  result : RResult Json
  trace : List Cmd
  uploadDeleted : Bool
deriving Repr

/-- `do_commit_build_refs` (jobs.rs lines 164–257): initialize the two
repository layouts, commit every ref via `commitStep`, then run
build-update-repo once and delete the upload staging directory. -/
def do_commit_build_refs (env : CommitEnv) (build_id : Int)
    (build_refs : List BuildRef) (endoflife : Option String) (cfg : Config) :
    CommitOutcome :=
  let build_repo_path := cfg.build_repo_base_path ++ "/" ++ toString build_id
  let upload_path := build_repo_path ++ "/upload"
  match env.initRepo build_repo_path with
  | .error e => ⟨.err e, [], false⟩
  | .ok _ =>
    match env.initRepo upload_path with
    | .error e => ⟨.err e, [], false⟩
    | .ok _ =>
      let src_repo_arg := "--src-repo=" ++ upload_path
      match commitLoop env cfg endoflife build_id build_repo_path src_repo_arg
        build_refs [] with
      | (.ok commits, tr) =>
        let ucmd := updateRepoCmd build_repo_path
        (match env.run ucmd with
         | .error e => ⟨.err e, tr ++ [ucmd], false⟩
         | .ok (success, _log, stderr) =>
           if !success then
             ⟨.err ("Failed to updaterepo: " ++ rustTrim stderr), tr ++ [ucmd], false⟩
           else
             match env.removeDir upload_path with
             | .error e => ⟨.err e, tr ++ [ucmd], false⟩
             | .ok _ =>
               ⟨.ok (Json.obj [("refs", JVal.obj commits)]), tr ++ [ucmd], true⟩)
      | (.err e, tr) => ⟨.err e, tr, false⟩
      | (.panicked, tr) => ⟨.panicked, tr, false⟩

/-- Recognizer for the summary/index regeneration command. -/
def isUpdateRepo (c : Cmd) : Bool :=
  c.program == "flatpak" && c.args.head? == some "build-update-repo"

/-- A sample configuration for concrete runs. -/
def sampleConfig : Config :=
  ⟨"repo", "build-repo", "https://hub.example.com", none, none, none⟩

/-- An environment where every external effect succeeds: commands exit 0,
rev-parse prints a commit id, and all filesystem calls succeed. -/
def happyEnv : CommitEnv where
  initRepo := fun _ => .ok ()
  run := fun _ => .ok (true, "", "")
  output := fun _ => .ok ⟨true, "abc123\n", ""⟩
  createFile := fun _ => .ok ()
  writeAll := fun _ _ => .ok ()
  removeDir := fun _ => .ok ()

/-- An environment where every run_command invocation exits non-zero with
stderr "boom\n"; everything else succeeds. -/
def failRunEnv : CommitEnv where
  initRepo := fun _ => .ok ()
  run := fun _ => .ok (false, "", "boom\n")
  output := fun _ => .ok ⟨true, "abc123\n", ""⟩
  createFile := fun _ => .ok ()
  writeAll := fun _ _ => .ok ()
  removeDir := fun _ => .ok ()

/-- Job kind enum.  Modelled from the spec: `JobKind` and its `from_db`
live in models.rs outside the provided sources; the spec lists the kinds
Commit and Publish (open enum), with integer codes in declaration order
and unknown codes decoding to none. -/
inductive JobKind where
  | commit : JobKind
  | publish : JobKind
deriving DecidableEq, Repr

/-- Modelled from the spec: decode a kind column value. -/
def JobKind.from_db (kind : Int) : Option JobKind :=
  if kind = 0 then some .commit
  else if kind = 1 then some .publish
  else none

/-- The decoded contents of a Commit job (`CommitJob \x7b build, endoflife \x7d`
as used by jobs.rs). -/
structure CommitJob where
  build : Int
  endoflife : Option String
deriving DecidableEq, Repr

/-- The decoded contents of a Publish job. -/
structure PublishJob where
  build : Int
deriving DecidableEq, Repr

/-- Environment for `handle_job`: the serde decoders for the two payload
shapes, the observable behaviour of the two pipeline handlers, and whether
the final diesel update succeeds. -/
structure HandlerEnv where
  decodeCommit : Json → Option CommitJob
  decodePublish : Json → Option PublishJob
  handleCommit : CommitJob → Except String Json
  handlePublish : PublishJob → Except String Json
  updateOk : Bool

/-- The `handler_res` computation of `handle_job` (jobs.rs lines 419–439):
dispatch on the decoded kind, treat an unknown kind or an undecodable
payload as an immediate error. -/
def jobHandlerRes (env : HandlerEnv) (job : JobRow) : Except String Json :=
  match JobKind.from_db job.kind with
  | some .commit =>
    match env.decodeCommit job.contents with
    | some commit_job => env.handleCommit commit_job
    | none => .error "Can't parse commit job"
  | some .publish =>
    match env.decodePublish job.contents with
    | some publish_job => env.handlePublish publish_job
    | none => .error "Can't parse publish job"
  | none => .error "Unknown job type"

/-- `let (new_status, new_results) = match handler_res \x7b Ok(json) =>
(Ended, json), Err(e) => (Broken, json!(e.to_string())) \x7d` — the terminal
status code and results payload written to the job row. -/
def jobTerminal (res : Except String Json) : Int × Json :=
  match res with
  | .ok json => (JobStatus.ended.toDb, json)
  | .error e => (JobStatus.broken.toDb, Json.str e)

/-- `handle_job` (jobs.rs lines 418–456): run the handler, then write the
terminal status and results to the job row filtered by id only (not guarded
on the row's prior state); a failed update leaves the table unchanged (the
error is only logged) and the function still returns. -/
def handle_job (env : HandlerEnv) (jobs : List JobRow) (job : JobRow) : List JobRow :=
  let handler_res := jobHandlerRes env job
  let new_status := (jobTerminal handler_res).1
  let new_results := (jobTerminal handler_res).2
  if env.updateOk then
    jobs.map (fun j =>
      if j.id == job.id then { j with status := new_status, results := new_results }
      else j)
  else jobs

/-- The source tag of a chunk on the output channel. -/
inductive CommandOutputSource where
  | stdout : CommandOutputSource
  | stderr : CommandOutputSource
deriving DecidableEq, Repr

/-- A channel event of `run_command`: a data chunk from one stream, or the
notification that a stream closed.  Bytes are modelled as `Nat`. -/
inductive CommandOutput where
  | data (source : CommandOutputSource) (chunk : List Nat) : CommandOutput
  | closed (source : CommandOutputSource) : CommandOutput
deriving DecidableEq, Repr

/-- `send_reads` (jobs.rs lines 87–107): turn the successive results of
`reader.read` (a byte chunk; an empty chunk signalling EOF; or an io
error) into channel events: each non-empty chunk is sent as data, EOF
sends Closed and returns, and a read error is logged, sends Closed and
breaks — so everything after the first terminator is dropped. -/
def send_reads (source : CommandOutputSource) :
    List (Except String (List Nat)) → List CommandOutput
  | [] => []
  | .ok chunk :: rest =>
    if chunk.isEmpty then [.closed source]
    else .data source chunk :: send_reads source rest
  | .error _ :: _ => [.closed source]

/-- The collector loop of `run_command` (lines 134–151): drain the channel
while `remaining > 0`, append every chunk to the combined log and stderr
chunks additionally to the stderr accumulator, decrement on Closed, and
stop when the channel is exhausted (recv error).  Returns (log, stderr). -/
def collectOutput : Nat → List CommandOutput → List Nat × List Nat
  | 0, _ => ([], [])
  | _ + 1, [] => ([], [])
  | n + 1, .data source chunk :: rest =>
    let r := collectOutput (n + 1) rest
    (chunk ++ r.1, if source = .stderr then chunk ++ r.2 else r.2)
  | n + 1, .closed _ :: rest => collectOutput n rest

/-- A child's exit status: a normal exit code or death by signal.
`status.success()` is true exactly for exit code 0. -/
inductive ExitStatus where
  | exited (code : Int) : ExitStatus
  | signaled (sig : Nat) : ExitStatus
deriving DecidableEq, Repr

/-- `ExitStatus::success()`. -/
def ExitStatus.success : ExitStatus → Bool
  | .exited code => code == 0
  | .signaled _ => false

/-- Environment for one `run_command` call: the spawn outcome (error = the
OS error string), the channel events in arrival order, and the outcome of
`child.wait()`. -/
structure RunEnv where
  spawn : Except String Unit
  events : List CommandOutput
  waitResult : Except String ExitStatus

/-- `run_command` (jobs.rs lines 109–162): spawn (failure returns an error
naming the OS error), collect both streams from the shared channel, wait
for the child, and return (success flag, combined log, stderr).  The final
`String::from_utf8_lossy` conversions are not modelled: the log and stderr
are returned as the accumulated byte lists. -/
def run_command (env : RunEnv) : Except String (Bool × List Nat × List Nat) :=
  match env.spawn with
  | .error e => .error ("Can't start command: " ++ e)
  | .ok _ =>
    let r := collectOutput 2 env.events
    match env.waitResult with
    | .error e => .error ("Can't wait for command: " ++ e)
    | .ok status => .ok (status.success, r.1, r.2)

/-- An arbitrary interleaving of two event lists, preserving the order
within each: the arrival order on the mpsc channel. -/
inductive Interleave : List CommandOutput → List CommandOutput →
    List CommandOutput → Prop where
  | nil : Interleave [] [] []
  | left (e : CommandOutput) (l1 l2 l : List CommandOutput) :
      Interleave l1 l2 l → Interleave (e :: l1) l2 (e :: l)
  | right (e : CommandOutput) (l1 l2 l : List CommandOutput) :
      Interleave l1 l2 l → Interleave l1 (e :: l2) (e :: l)

/-- The event list of one stream: its data chunks followed by one Closed. -/
def StreamEvents (source : CommandOutputSource) (chunks : List (List Nat)) :
    List CommandOutput :=
  chunks.map (CommandOutput.data source) ++ [.closed source]

/-- The byte concatenation, in arrival order, of every data chunk. -/
def dataBytes : List CommandOutput → List Nat
  | [] => []
  | .data _ chunk :: rest => chunk ++ dataBytes rest
  | .closed _ :: rest => dataBytes rest

/-- The byte concatenation, in arrival order, of the stderr data chunks. -/
def errBytes : List CommandOutput → List Nat
  | [] => []
  | .data source chunk :: rest =>
    if source = .stderr then chunk ++ errBytes rest else errBytes rest
  | .closed _ :: rest => errBytes rest

/-- The not-yet-exhausted suffix of a well-formed stream: some data chunks
from this stream followed by its one final Closed event. -/
inductive StreamLive (source : CommandOutputSource) : List CommandOutput → Prop where
  | last : StreamLive source [.closed source]
  | cons (chunk : List Nat) (rest : List CommandOutput) :
      StreamLive source rest → StreamLive source (.data source chunk :: rest)

/-- 1 while a stream still has its Closed event pending, 0 once done. -/
def streamCount : List CommandOutput → Nat
  | [] => 0
  | _ :: _ => 1

/-- Whether a read sequence reaches a terminator (EOF or io error) — i.e.
the reader thread actually finishes. -/
def hasTerminator : List (Except String (List Nat)) → Bool
  | [] => false
  | .ok chunk :: rest => if chunk.isEmpty then true else hasTerminator rest
  | .error _ :: _ => true

/-- The chunks successfully read before the terminator. -/
def readChunks : List (Except String (List Nat)) → List (List Nat)
  | [] => []
  | .ok chunk :: rest => if chunk.isEmpty then [] else chunk :: readChunks rest
  | .error _ :: _ => []

/-- A message in the JobExecutor's mailbox (a SyncArbiter with one thread,
so messages are processed one at a time in FIFO order). -/
inductive ExecMsg where
  | processOne : ExecMsg
  | stopJobs : ExecMsg
deriving DecidableEq, Repr

/-- The JobQueue actor's fields (jobs.rs lines 536–541). -/
structure QueueState where
  running : Bool
  processing_job : Bool
  jobs_queued : Bool
deriving DecidableEq, Repr

/-- `JobQueue::kick` (jobs.rs lines 544–590) as a pure state transformer:
returns the new queue state and whether a ProcessOneJob message was sent
to the executor in this call. -/
def kick (q : QueueState) : QueueState × Bool :=
  if !q.running then (q, false)
  else if q.processing_job then ({ q with jobs_queued := true }, false)
  else ({ q with processing_job := true, jobs_queued := false }, true)

/-- The whole system: the JobQueue actor state, the executor's FIFO
mailbox, and the message (if any) the executor thread is processing. -/
structure SysState where
  queue : QueueState
  mailbox : List ExecMsg
  inflight : Option ExecMsg
deriving DecidableEq, Repr

/-- The events of the system.  `trigger` is a ProcessJobs message (and the
actor's own started hook), `timer` the run_later fallback — both just call
kick.  `stopReq` is the StopJobQueue handler: set running to false and
send StopJobs to the executor; its ActorResponse completes at
`execEndStop`, when the executor has processed StopJobs.  `execStart`
dequeues the next mailbox message into the single executor thread;
`execEndProcess b` is the completion of a ProcessOneJob (result `b`),
running the queue's completion callback. -/
inductive QLabel where
  | trigger : QLabel
  | timer : QLabel
  | stopReq : QLabel
  | execStart : QLabel
  | execEndProcess (processed : Bool) : QLabel
  | execEndStop : QLabel
deriving DecidableEq, Repr

/-- One labelled step of the system; `none` when the label is not enabled.
The returned Bool records whether this step issued a new Executor
invocation (sent ProcessOneJob). -/
def step (s : SysState) : QLabel → Option (SysState × Bool)
  | .trigger =>
    let r := kick s.queue
    let sent := if r.2 then [ExecMsg.processOne] else []
    some ({ s with queue := r.1, mailbox := s.mailbox ++ sent }, r.2)
  | .timer =>
    let r := kick s.queue
    let sent := if r.2 then [ExecMsg.processOne] else []
    some ({ s with queue := r.1, mailbox := s.mailbox ++ sent }, r.2)
  | .stopReq =>
    some ({ s with queue := { s.queue with running := false },
                   mailbox := s.mailbox ++ [ExecMsg.stopJobs] }, false)
  | .execStart =>
    match s.inflight, s.mailbox with
    | none, m :: rest => some ({ s with inflight := some m, mailbox := rest }, false)
    | _, _ => none
  | .execEndProcess b =>
    match s.inflight with
    | some .processOne =>
      let q1 := { s.queue with processing_job := false }
      if q1.running then
        if q1.jobs_queued || b then
          let r := kick q1
          let sent := if r.2 then [ExecMsg.processOne] else []
          some ({ queue := r.1, inflight := none, mailbox := s.mailbox ++ sent }, r.2)
        else some ({ s with queue := q1, inflight := none }, false)
      else some ({ s with queue := q1, inflight := none }, false)
    | _ => none
  | .execEndStop =>
    match s.inflight with
    | some .stopJobs => some ({ s with inflight := none }, false)
    | _ => none

/-- Run a label sequence from a state; `none` if some label is disabled. -/
def runTrace (s : SysState) : List QLabel → Option SysState
  | [] => some s
  | l :: rest =>
    match step s l with
    | some r => runTrace r.1 rest
    | none => none

theorem changedRows_cons (a b : JobRow) (l1 l2 : List JobRow) :
    changedRows (a :: l1) (b :: l2) = (if a = b then 0 else 1) + changedRows l1 l2 := by
  simp only [changedRows, List.zip_cons_cons, List.filter_cons]
  by_cases h : a = b
  · simp [h]
  · simp [h, Nat.add_comm]

theorem changedRows_self (l : List JobRow) : changedRows l l = 0 := by
  induction l with
  | nil => rfl
  | cons a l ih => rw [changedRows_cons, ih, if_pos rfl]

theorem setJobStarted_cons (a : JobRow) (l : List JobRow) (jid : Int) :
    setJobStarted (a :: l) jid =
      (if a.id = jid then { a with status := JobStatus.started.toDb } else a) ::
        setJobStarted l jid := by
  simp only [setJobStarted, List.map_cons]
  by_cases h : a.id = jid
  · rw [if_pos (by simpa using h), if_pos h]
  · rw [if_neg (by simpa using h), if_neg h]

theorem setJobStarted_eq_of_not_mem (l : List JobRow) (jid : Int)
    (h : ∀ j ∈ l, j.id ≠ jid) : setJobStarted l jid = l := by
  induction l with
  | nil => rfl
  | cons a l ih =>
    rw [setJobStarted_cons, if_neg (h a (List.mem_cons_self a l)),
      ih (fun j hj => h j (List.mem_cons_of_mem a hj))]

theorem changedRows_setJobStarted (l : List JobRow) (jid : Int)
    (hnd : (l.map JobRow.id).Nodup) : changedRows l (setJobStarted l jid) ≤ 1 := by
  induction l with
  | nil => simp [changedRows, setJobStarted]
  | cons a l ih =>
    simp only [List.map_cons, List.nodup_cons] at hnd
    obtain ⟨hna, hnd'⟩ := hnd
    rw [setJobStarted_cons, changedRows_cons]
    by_cases hid : a.id = jid
    · have hrest : setJobStarted l jid = l := by
        refine setJobStarted_eq_of_not_mem l jid (fun j hj hj' => hna ?_)
        rw [← hid] at hj'
        exact hj' ▸ List.mem_map_of_mem JobRow.id hj
      rw [if_pos hid, hrest, changedRows_self]
      by_cases hb : a = { a with status := JobStatus.started.toDb }
      · rw [if_pos hb]
        omega
      · rw [if_neg hb]
    · rw [if_neg hid, if_pos rfl]
      have := ih hnd'
      omega

/-- The eligibility filter, characterized: a job passes iff its status is
New and every dependency edge of the job has dependant status strictly
above Started. -/
theorem eligibleJob_iff (deps : List DepRow) (j : JobRow) :
    eligibleJob deps j = true ↔
      (j.status = JobStatus.new.toDb ∧
       ∀ e ∈ deps, e.job_id = j.id → JobStatus.started.toDb < e.dependant_status) := by
  constructor
  · intro h
    simp only [eligibleJob, Bool.and_eq_true, beq_iff_eq, Bool.not_eq_true',
      List.any_eq_false] at h
    refine ⟨h.1, fun e he heq => ?_⟩
    have hb := h.2 e he
    simp only [depBlocks, Bool.and_eq_true, beq_iff_eq, decide_eq_true_eq,
      not_and, not_le] at hb
    exact hb heq
  · intro h
    simp only [eligibleJob, Bool.and_eq_true, beq_iff_eq, Bool.not_eq_true',
      List.any_eq_false]
    refine ⟨h.1, fun e he => ?_⟩
    simp only [depBlocks, Bool.and_eq_true, beq_iff_eq, decide_eq_true_eq,
      not_and, not_le]
    exact fun heq => h.2 e he heq

/-- C1: for every database state (with distinct job ids), `process_one_job`
claims at most one job, the claimed job had status New and no dependency
edge to a dependency with status strictly below Started, the claim sets its
status to Started, and when no eligible job exists it returns `false`
leaving every job row unchanged. -/
theorem scheduler_claims_one_eligible (db : SchedulerDb)
    (hnd : (db.jobs.map JobRow.id).Nodup) :
    ((process_one_job db).2.1 = none →
      (process_one_job db).2.2 = false ∧ (process_one_job db).1 = db) ∧
    (∀ cj, (process_one_job db).2.1 = some cj →
      (process_one_job db).2.2 = true ∧
      cj.status = JobStatus.started.toDb ∧
      (∃ j0 ∈ db.jobs, j0.id = cj.id ∧ j0.status = JobStatus.new.toDb ∧
        ∀ e ∈ db.deps, e.job_id = cj.id →
          ¬ e.dependant_status < JobStatus.started.toDb) ∧
      (process_one_job db).1.deps = db.deps ∧
      changedRows db.jobs (process_one_job db).1.jobs ≤ 1) := by
  unfold process_one_job
  cases hfind : findNewJob db with
  | none => simp
  | some j =>
    refine ⟨fun h => absurd h (by simp), fun cj hcj => ?_⟩
    have hcj' : { j with status := JobStatus.started.toDb } = cj := by
      simpa using hcj
    subst hcj'
    have hmem : j ∈ db.jobs := List.mem_of_find?_eq_some hfind
    have helig := (eligibleJob_iff db.deps j).1 (List.find?_some hfind)
    refine ⟨rfl, rfl, ⟨j, hmem, rfl, helig.1, ?_⟩, rfl,
      changedRows_setJobStarted db.jobs j.id hnd⟩
    intro e he heq hlt
    exact absurd hlt (asymm (helig.2 e he (by simpa using heq)))

/-- Witness for C1 at a concrete database: a single New job with no
dependencies is claimed, and on the empty database nothing is modified. -/
theorem scheduler_claims_one_eligible_witness :
    (process_one_job { jobs := [], deps := [] }).2.2 = false ∧
    (process_one_job { jobs := [], deps := [] }).1 = { jobs := [], deps := [] } :=
  (scheduler_claims_one_eligible { jobs := [], deps := [] } (by decide)).1 (by rfl)

/-- C2 counterexample: a New job with exactly one dependency whose status
is exactly Started is rejected by the eligibility filter (the anti-join
blocks on `dependant_status <= Started`), and `process_one_job` claims
nothing on that database — contradicting the claim that such a job is
eligible and can be claimed. -/
theorem started_dep_not_eligible_cx :
    eligibleJob [⟨1, JobStatus.started.toDb⟩] ⟨1, 0, JobStatus.new.toDb, .null, .null⟩
        = false ∧
    (process_one_job { jobs := [⟨1, 0, JobStatus.new.toDb, .null, .null⟩],
                       deps := [⟨1, JobStatus.started.toDb⟩] }).2.1 = none ∧
    (process_one_job { jobs := [⟨1, 0, JobStatus.new.toDb, .null, .null⟩],
                       deps := [⟨1, JobStatus.started.toDb⟩] }).2.2 = false := by
  decide

/-- C2 (amended): the eligibility filter accepts a job iff every dependency
edge of the job has dependant status strictly above Started (i.e. Ended or
Broken); a job one of whose dependencies has status exactly Started is
rejected and is never the claimed job. -/
theorem started_dep_blocks_claim :
    (∀ (deps : List DepRow) (j : JobRow),
        eligibleJob deps j = true ↔
          (j.status = JobStatus.new.toDb ∧
           ∀ e ∈ deps, e.job_id = j.id → JobStatus.started.toDb < e.dependant_status)) ∧
    (∀ (deps : List DepRow) (j : JobRow) (e : DepRow), e ∈ deps → e.job_id = j.id →
        e.dependant_status = JobStatus.started.toDb → eligibleJob deps j = false) ∧
    (∀ (db : SchedulerDb) (cj : JobRow), (process_one_job db).2.1 = some cj →
        ∀ e ∈ db.deps, e.job_id = cj.id →
          JobStatus.started.toDb < e.dependant_status) := by
  refine ⟨fun deps j => eligibleJob_iff deps j, ?_, ?_⟩
  · intro deps j e he heq hstat
    cases h : eligibleJob deps j with
    | false => rfl
    | true =>
      have hlt := ((eligibleJob_iff deps j).1 h).2 e he heq
      rw [hstat] at hlt
      exact absurd hlt (lt_irrefl _)
  · intro db cj hcj e he heq
    unfold process_one_job at hcj
    cases hfind : findNewJob db with
    | none => rw [hfind] at hcj; simp at hcj
    | some j =>
      rw [hfind] at hcj
      have hcj' : { j with status := JobStatus.started.toDb } = cj := by
        simpa using hcj
      subst hcj'
      have helig := (eligibleJob_iff db.deps j).1 (List.find?_some hfind)
      exact helig.2 e he (by simpa using heq)

/-- Witness for C2's amended theorem: on a database whose single New job
has one dependency with status Ended, the job is claimed and the theorem
yields that the dependency is strictly above Started. -/
theorem started_dep_blocks_claim_witness :
    JobStatus.started.toDb < (DepRow.mk 1 JobStatus.ended.toDb).dependant_status :=
  started_dep_blocks_claim.2.2
    { jobs := [⟨1, 0, JobStatus.new.toDb, .null, .null⟩],
      deps := [⟨1, JobStatus.ended.toDb⟩] }
    ⟨1, 0, JobStatus.started.toDb, .null, .null⟩
    (by decide) ⟨1, JobStatus.ended.toDb⟩ (by decide) (by decide)

/-- C8: the build-state encoding round-trips losslessly: decoding the
encoded column pair yields the original tagged value for every repo state
and every published state; in particular `Failed "disk full"` decodes back
with the identical reason and Ready/Published encode with no reason. -/
theorem build_state_roundtrip :
    (∀ s : RepoState, RepoState.from_db (RepoState.to_db s).1 (RepoState.to_db s).2 = s) ∧
    (∀ s : PublishedState,
      PublishedState.from_db (PublishedState.to_db s).1 (PublishedState.to_db s).2 = s) ∧
    RepoState.from_db (RepoState.to_db (RepoState.failed "disk full")).1
        (RepoState.to_db (RepoState.failed "disk full")).2 = RepoState.failed "disk full" ∧
    PublishedState.from_db (PublishedState.to_db (PublishedState.failed "disk full")).1
        (PublishedState.to_db (PublishedState.failed "disk full")).2
      = PublishedState.failed "disk full" ∧
    (RepoState.to_db RepoState.ready).2 = none ∧
    (PublishedState.to_db PublishedState.published).2 = none := by
  refine ⟨fun s => ?_, fun s => ?_, rfl, rfl, rfl, rfl⟩
  · cases s <;> rfl
  · cases s <;> rfl

/-- C3 counterexample: build 42 is in state Ready (not the expected
Verifying) while the commit pipeline returned Ok.  The transaction rolls
back leaving the row unchanged — but the job does NOT complete with the
pipeline's Ok result: the `?` on the transaction propagates the rollback
error, so the overall result is an error, contradicting the claim that the
precondition violation never changes the job's success/failure outcome. -/
theorem precondition_failure_changes_outcome_cx :
    (handle_commit_job_update [⟨42, 1, none, 0, none⟩] 42 (Except.ok (Json.obj []))).1
        = [⟨42, 1, none, 0, none⟩] ∧
    (handle_commit_job_update [⟨42, 1, none, 0, none⟩] 42 (Except.ok (Json.obj []))).2
        = Except.error (dieselErrorMessage .rollbackTransaction) ∧
    (Except.error (dieselErrorMessage .rollbackTransaction) : Except String Json)
        ≠ Except.ok (Json.obj []) := by
  refine ⟨rfl, rfl, ?_⟩
  intro h
  exact Except.noConfusion h

/-- C3 (amended): in both pipelines the state update re-reads the Build row
in a transaction and compares its state to the expected in-progress state
(Verifying for commit, Publishing for publish).  If the comparison fails
the transaction is rolled back with every build row unchanged, and the job
then completes with an error (the rollback error propagated by `?`), even
when the pipeline returned Ok; only when the comparison succeeds does the
job complete with the pipeline's own result, with the terminal state
written. -/
theorem state_update_guard :
    (∀ (builds : List BuildRow) (bid : Int) (res : Except String Json) (b : BuildRow),
      findBuild builds bid = some b →
      (RepoState.from_db b.repo_state b.repo_state_reason).same_state_as
          RepoState.verifying = false →
      handle_commit_job_update builds bid res =
        (builds, Except.error (dieselErrorMessage .rollbackTransaction))) ∧
    (∀ (builds : List BuildRow) (bid : Int) (res : Except String Json) (b : BuildRow),
      findBuild builds bid = some b →
      (RepoState.from_db b.repo_state b.repo_state_reason).same_state_as
          RepoState.verifying = true →
      handle_commit_job_update builds bid res =
        (setRepoState builds bid (RepoState.to_db (commitNewState res)).1
          (RepoState.to_db (commitNewState res)).2, res)) ∧
    (∀ (builds : List BuildRow) (bid : Int) (res : Except String Json) (b : BuildRow),
      findBuild builds bid = some b →
      (PublishedState.from_db b.published_state b.published_state_reason).same_state_as
          PublishedState.publishing = false →
      handle_publish_job_update builds bid res =
        (builds, Except.error (dieselErrorMessage .rollbackTransaction))) ∧
    (∀ (builds : List BuildRow) (bid : Int) (res : Except String Json) (b : BuildRow),
      findBuild builds bid = some b →
      (PublishedState.from_db b.published_state b.published_state_reason).same_state_as
          PublishedState.publishing = true →
      handle_publish_job_update builds bid res =
        (setPublishedState builds bid (PublishedState.to_db (publishNewState res)).1
          (PublishedState.to_db (publishNewState res)).2, res)) := by
  refine ⟨?_, ?_, ?_, ?_⟩ <;> intro builds bid res b hfind hstate
  · unfold handle_commit_job_update
    rw [hfind]
    simp [hstate]
  · unfold handle_commit_job_update
    rw [hfind]
    simp [hstate]
  · unfold handle_publish_job_update
    rw [hfind]
    simp [hstate]
  · unfold handle_publish_job_update
    rw [hfind]
    simp [hstate]

/-- Witness for C3's amended theorem: build 42 in Verifying with a
successful commit pipeline is written to Ready and the job result is the
pipeline's Ok; build 7 in Published (not Publishing) rolls back. -/
theorem state_update_guard_witness :
    handle_commit_job_update [⟨42, 0, none, 0, none⟩] 42 (Except.ok (Json.obj [])) =
      (setRepoState [⟨42, 0, none, 0, none⟩] 42
        (RepoState.to_db (commitNewState (Except.ok (Json.obj [])))).1
        (RepoState.to_db (commitNewState (Except.ok (Json.obj [])))).2,
       Except.ok (Json.obj [])) ∧
    handle_publish_job_update [⟨7, 1, none, 2, none⟩] 7 (Except.ok (Json.obj [])) =
      ([⟨7, 1, none, 2, none⟩], Except.error (dieselErrorMessage .rollbackTransaction)) :=
  ⟨state_update_guard.2.1 [⟨42, 0, none, 0, none⟩] 42 (Except.ok (Json.obj []))
      ⟨42, 0, none, 0, none⟩ rfl rfl,
   state_update_guard.2.2.1 [⟨7, 1, none, 2, none⟩] 7 (Except.ok (Json.obj []))
      ⟨7, 1, none, 2, none⟩ rfl rfl⟩

theorem commitStep_trace (env : CommitEnv) (cfg : Config) (eol : Option String)
    (bid : Int) (bp sr : String) (r : BuildRef) :
    (commitStep env cfg eol bid bp sr r).2 = [commitFromCmd cfg eol bp sr r] ∨
    (commitStep env cfg eol bid bp sr r).2 =
      [commitFromCmd cfg eol bp sr r, revParseCmd bp r.ref_name] := by
  rcases hrun : env.run (commitFromCmd cfg eol bp sr r) with e | ⟨success, lg, sd⟩
  · left; simp [commitStep, hrun]
  · cases success with
    | false => left; simp [commitStep, hrun]
    | true =>
      rcases hparse : parse_ostree_ref env bp r.ref_name with e | commit
      · right; simp [commitStep, hrun, hparse]
      · by_cases happ : rustStartsWith r.ref_name "app/" = true
        · rcases hget1 : (rustSplit '/' r.ref_name)[1]? with _ | p1
          · right; simp [commitStep, hrun, hparse, happ, hget1]
          · rcases hcreate : env.createFile (bp ++ "/" ++ p1 ++ ".flatpakref")
              with e | u
            · right; simp [commitStep, hrun, hparse, happ, hget1, hcreate]
            · rcases hget3 : (rustSplit '/' r.ref_name)[3]? with _ | p3
              · right
                simp [commitStep, hrun, hparse, happ, hget1, hcreate, hget3]
              · rcases hwrite : env.writeAll (bp ++ "/" ++ p1 ++ ".flatpakref")
                  (flatpakrefContent cfg bid p1 p3) with e | u2
                · right
                  simp [commitStep, hrun, hparse, happ, hget1, hcreate, hget3, hwrite]
                · right
                  simp [commitStep, hrun, hparse, happ, hget1, hcreate, hget3, hwrite]
        · right; simp [commitStep, hrun, hparse, happ]

theorem commitStep_ok_trace (env : CommitEnv) (cfg : Config) (eol : Option String)
    (bid : Int) (bp sr : String) (r : BuildRef) (nc : String × String)
    (h : (commitStep env cfg eol bid bp sr r).1 = .ok nc) :
    (commitStep env cfg eol bid bp sr r).2 =
      [commitFromCmd cfg eol bp sr r, revParseCmd bp r.ref_name] := by
  rcases hrun : env.run (commitFromCmd cfg eol bp sr r) with e | ⟨success, lg, sd⟩
  · simp [commitStep, hrun] at h
  · cases success with
    | false => simp [commitStep, hrun] at h
    | true =>
      rcases hparse : parse_ostree_ref env bp r.ref_name with e | commit
      · simp [commitStep, hrun, hparse] at h
      · by_cases happ : rustStartsWith r.ref_name "app/" = true
        · rcases hget1 : (rustSplit '/' r.ref_name)[1]? with _ | p1
          · simp [commitStep, hrun, hparse, happ, hget1]
          · rcases hcreate : env.createFile (bp ++ "/" ++ p1 ++ ".flatpakref")
              with e | u
            · simp [commitStep, hrun, hparse, happ, hget1, hcreate]
            · rcases hget3 : (rustSplit '/' r.ref_name)[3]? with _ | p3
              · simp [commitStep, hrun, hparse, happ, hget1, hcreate, hget3]
              · rcases hwrite : env.writeAll (bp ++ "/" ++ p1 ++ ".flatpakref")
                  (flatpakrefContent cfg bid p1 p3) with e | u2
                · simp [commitStep, hrun, hparse, happ, hget1, hcreate, hget3, hwrite]
                · simp [commitStep, hrun, hparse, happ, hget1, hcreate, hget3, hwrite]
        · simp [commitStep, hrun, hparse, happ]

theorem commitStep_fail (env : CommitEnv) (cfg : Config) (eol : Option String)
    (bid : Int) (bp sr : String) (r : BuildRef) (lg sd : String)
    (h : env.run (commitFromCmd cfg eol bp sr r) = .ok (false, lg, sd)) :
    commitStep env cfg eol bid bp sr r =
      (.err ("Failed to build commit for ref " ++ r.ref_name ++ ": " ++ rustTrim sd),
       [commitFromCmd cfg eol bp sr r]) := by
  simp only [commitStep]
  rw [h]
  rfl

theorem commitStep_no_update (env : CommitEnv) (cfg : Config) (eol : Option String)
    (bid : Int) (bp sr : String) (r : BuildRef) :
    ∀ c ∈ (commitStep env cfg eol bid bp sr r).2, isUpdateRepo c = false := by
  intro c hc
  rcases commitStep_trace env cfg eol bid bp sr r with h | h <;> rw [h] at hc
  · simp at hc
    rw [hc]
    rfl
  · rcases (by simpa using hc : c = commitFromCmd cfg eol bp sr r ∨
      c = revParseCmd bp r.ref_name) with h2 | h2 <;> rw [h2] <;> rfl

theorem commitLoop_nil (env : CommitEnv) (cfg : Config) (eol : Option String)
    (bid : Int) (bp sr : String) (acc : List (String × String)) :
    commitLoop env cfg eol bid bp sr [] acc = (.ok acc, []) := rfl

theorem commitLoop_cons_ok (env : CommitEnv) (cfg : Config) (eol : Option String)
    (bid : Int) (bp sr : String) (r : BuildRef) (rest : List BuildRef)
    (acc : List (String × String)) (nc : String × String) (tr0 : List Cmd)
    (hs : commitStep env cfg eol bid bp sr r = (.ok nc, tr0)) :
    commitLoop env cfg eol bid bp sr (r :: rest) acc =
      ((commitLoop env cfg eol bid bp sr rest (acc ++ [nc])).1,
       tr0 ++ (commitLoop env cfg eol bid bp sr rest (acc ++ [nc])).2) := by
  show (match commitStep env cfg eol bid bp sr r with
    | (.ok nc, tr) =>
      ((commitLoop env cfg eol bid bp sr rest (acc ++ [nc])).1,
       tr ++ (commitLoop env cfg eol bid bp sr rest (acc ++ [nc])).2)
    | (.err e, tr) => (RResult.err e, tr)
    | (.panicked, tr) => (RResult.panicked, tr)) = _
  rw [hs]

theorem commitLoop_cons_err (env : CommitEnv) (cfg : Config) (eol : Option String)
    (bid : Int) (bp sr : String) (r : BuildRef) (rest : List BuildRef)
    (acc : List (String × String)) (e : String) (tr0 : List Cmd)
    (hs : commitStep env cfg eol bid bp sr r = (.err e, tr0)) :
    commitLoop env cfg eol bid bp sr (r :: rest) acc = (.err e, tr0) := by
  show (match commitStep env cfg eol bid bp sr r with
    | (.ok nc, tr) =>
      ((commitLoop env cfg eol bid bp sr rest (acc ++ [nc])).1,
       tr ++ (commitLoop env cfg eol bid bp sr rest (acc ++ [nc])).2)
    | (.err e, tr) => (RResult.err e, tr)
    | (.panicked, tr) => (RResult.panicked, tr)) = _
  rw [hs]

theorem commitLoop_cons_panicked (env : CommitEnv) (cfg : Config) (eol : Option String)
    (bid : Int) (bp sr : String) (r : BuildRef) (rest : List BuildRef)
    (acc : List (String × String)) (tr0 : List Cmd)
    (hs : commitStep env cfg eol bid bp sr r = (.panicked, tr0)) :
    commitLoop env cfg eol bid bp sr (r :: rest) acc = (.panicked, tr0) := by
  show (match commitStep env cfg eol bid bp sr r with
    | (.ok nc, tr) =>
      ((commitLoop env cfg eol bid bp sr rest (acc ++ [nc])).1,
       tr ++ (commitLoop env cfg eol bid bp sr rest (acc ++ [nc])).2)
    | (.err e, tr) => (RResult.err e, tr)
    | (.panicked, tr) => (RResult.panicked, tr)) = _
  rw [hs]

theorem commitLoop_no_update (env : CommitEnv) (cfg : Config) (eol : Option String)
    (bid : Int) (bp sr : String) (refs : List BuildRef) (acc : List (String × String)) :
    ∀ c ∈ (commitLoop env cfg eol bid bp sr refs acc).2, isUpdateRepo c = false := by
  induction refs generalizing acc with
  | nil => intro c hc; rw [commitLoop_nil] at hc; simp at hc
  | cons r rest ih =>
    intro c hc
    rcases hs : commitStep env cfg eol bid bp sr r with ⟨res, tr0⟩
    have htr : ∀ c2 ∈ tr0, isUpdateRepo c2 = false := by
      intro c2 hc2
      have h2 := commitStep_no_update env cfg eol bid bp sr r c2
      rw [hs] at h2
      exact h2 hc2
    cases res with
    | ok nc =>
      rw [commitLoop_cons_ok env cfg eol bid bp sr r rest acc nc tr0 hs] at hc
      simp only [List.mem_append] at hc
      rcases hc with hc | hc
      · exact htr c hc
      · exact ih (acc ++ [nc]) c hc
    | err e =>
      rw [commitLoop_cons_err env cfg eol bid bp sr r rest acc e tr0 hs] at hc
      exact htr c hc
    | panicked =>
      rw [commitLoop_cons_panicked env cfg eol bid bp sr r rest acc tr0 hs] at hc
      exact htr c hc

theorem commitLoop_ok_steps (env : CommitEnv) (cfg : Config) (eol : Option String)
    (bid : Int) (bp sr : String) (refs : List BuildRef) :
    ∀ (acc cs : List (String × String)) (tr : List Cmd),
      commitLoop env cfg eol bid bp sr refs acc = (.ok cs, tr) →
      ∀ q ∈ refs, (∃ nc tr0, commitStep env cfg eol bid bp sr q = (.ok nc, tr0)) ∧
        commitFromCmd cfg eol bp sr q ∈ tr := by
  induction refs with
  | nil => intro acc cs tr h q hq; simp at hq
  | cons r rest ih =>
    intro acc cs tr h q hq
    rcases hs : commitStep env cfg eol bid bp sr r with ⟨res, tr0⟩
    cases res with
    | ok nc =>
      rw [commitLoop_cons_ok env cfg eol bid bp sr r rest acc nc tr0 hs] at h
      have htr0 : tr0 = [commitFromCmd cfg eol bp sr r, revParseCmd bp r.ref_name] := by
        have h2 := commitStep_ok_trace env cfg eol bid bp sr r nc (by rw [hs])
        rw [hs] at h2
        exact h2
      have htr : tr = tr0 ++ (commitLoop env cfg eol bid bp sr rest (acc ++ [nc])).2 :=
        (congrArg Prod.snd h).symm
      rcases List.mem_cons.mp hq with hq | hq
      · subst hq
        exact ⟨⟨nc, tr0, hs⟩, by rw [htr, htr0]; simp⟩
      · rcases hrec : commitLoop env cfg eol bid bp sr rest (acc ++ [nc]) with ⟨res2, tr2⟩
        have hres2 : res2 = RResult.ok cs := by
          have h2 := congrArg Prod.fst h
          simp only [hrec] at h2
          exact h2
        rcases ih (acc ++ [nc]) cs tr2 (by rw [hrec, hres2]) q hq with ⟨hstep, hmem⟩
        exact ⟨hstep, by rw [htr, hrec]; simp [hmem]⟩
    | err e =>
      rw [commitLoop_cons_err env cfg eol bid bp sr r rest acc e tr0 hs] at h
      simp at h
    | panicked =>
      rw [commitLoop_cons_panicked env cfg eol bid bp sr r rest acc tr0 hs] at h
      simp at h

theorem commitLoop_append_ok (env : CommitEnv) (cfg : Config) (eol : Option String)
    (bid : Int) (bp sr : String) (pre : List BuildRef)
    (hpre : ∀ p ∈ pre, ∃ nc tr0, commitStep env cfg eol bid bp sr p = (.ok nc, tr0)) :
    ∀ (rest : List BuildRef) (acc : List (String × String)),
      ∃ acc', commitLoop env cfg eol bid bp sr (pre ++ rest) acc =
        ((commitLoop env cfg eol bid bp sr rest acc').1,
         (commitLoop env cfg eol bid bp sr pre acc).2 ++
           (commitLoop env cfg eol bid bp sr rest acc').2) := by
  induction pre with
  | nil =>
    intro rest acc
    refine ⟨acc, ?_⟩
    rw [List.nil_append, commitLoop_nil, List.nil_append]
  | cons p pre ih =>
    intro rest acc
    rcases hpre p (List.mem_cons_self p pre) with ⟨nc, tr0, hs⟩
    rcases ih (fun q hq => hpre q (List.mem_cons_of_mem p hq)) rest (acc ++ [nc])
      with ⟨acc', hrec⟩
    refine ⟨acc', ?_⟩
    rw [List.cons_append,
      commitLoop_cons_ok env cfg eol bid bp sr p (pre ++ rest) acc nc tr0 hs,
      commitLoop_cons_ok env cfg eol bid bp sr p pre acc nc tr0 hs, hrec]
    simp

theorem do_commit_success_shape (env : CommitEnv) (cfg : Config) (eol : Option String)
    (bid : Int) (refs : List BuildRef) (bp up sr : String)
    (hbp : bp = cfg.build_repo_base_path ++ "/" ++ toString bid)
    (hup : up = bp ++ "/upload") (hsr : sr = "--src-repo=" ++ up)
    (hsucc : (do_commit_build_refs env bid refs eol cfg).uploadDeleted = true ∨
      ∃ cs0, (do_commit_build_refs env bid refs eol cfg).result = .ok cs0) :
    ∃ cs tr, commitLoop env cfg eol bid bp sr refs [] = (.ok cs, tr) ∧
      env.initRepo bp = .ok () ∧ env.initRepo up = .ok () ∧
      (∃ lg2 sd2, env.run (updateRepoCmd bp) = .ok (true, lg2, sd2)) ∧
      env.removeDir up = .ok () ∧
      do_commit_build_refs env bid refs eol cfg =
        ⟨.ok (Json.obj [("refs", JVal.obj cs)]), tr ++ [updateRepoCmd bp], true⟩ := by
  subst hbp
  subst hup
  subst hsr
  rcases hinit1 : env.initRepo (cfg.build_repo_base_path ++ "/" ++ toString bid)
    with e1 | u1
  · rcases hsucc with h | ⟨cs0, h⟩ <;> simp [do_commit_build_refs, hinit1] at h
  rcases hinit2 : env.initRepo (cfg.build_repo_base_path ++ "/" ++ toString bid
    ++ "/upload") with e2 | u2
  · rcases hsucc with h | ⟨cs0, h⟩ <;> simp [do_commit_build_refs, hinit1, hinit2] at h
  rcases hloop : commitLoop env cfg eol bid
    (cfg.build_repo_base_path ++ "/" ++ toString bid)
    ("--src-repo=" ++ (cfg.build_repo_base_path ++ "/" ++ toString bid ++ "/upload"))
    refs [] with ⟨res, tr⟩
  cases res with
  | err e =>
    rcases hsucc with h | ⟨cs0, h⟩ <;>
      simp [do_commit_build_refs, hinit1, hinit2, hloop] at h
  | panicked =>
    rcases hsucc with h | ⟨cs0, h⟩ <;>
      simp [do_commit_build_refs, hinit1, hinit2, hloop] at h
  | ok cs =>
    rcases hrun : env.run (updateRepoCmd
      (cfg.build_repo_base_path ++ "/" ++ toString bid)) with e3 | ⟨succ, lg2, sd2⟩
    · rcases hsucc with h | ⟨cs0, h⟩ <;>
        simp [do_commit_build_refs, hinit1, hinit2, hloop, hrun] at h
    cases succ with
    | false =>
      rcases hsucc with h | ⟨cs0, h⟩ <;>
        simp [do_commit_build_refs, hinit1, hinit2, hloop, hrun] at h
    | true =>
      rcases hrem : env.removeDir (cfg.build_repo_base_path ++ "/" ++ toString bid
        ++ "/upload") with e4 | u4
      · rcases hsucc with h | ⟨cs0, h⟩ <;>
          simp [do_commit_build_refs, hinit1, hinit2, hloop, hrun, hrem] at h
      cases u1
      cases u2
      cases u4
      exact ⟨cs, tr, rfl, rfl, rfl, ⟨lg2, sd2, rfl⟩, rfl, by
        simp [do_commit_build_refs, hinit1, hinit2, hloop, hrun, hrem]⟩

/-- C4: in the commit pipeline, a non-zero exit of the per-ref commit
command aborts with an error carrying the ref name and the trimmed stderr,
processes no later ref (the trace stops at the failing command), and does
not delete the upload staging directory; conversely the upload directory is
deleted only when every ref committed successfully and the
summary-regeneration step succeeded. -/
theorem commit_failure_preserves_upload (env : CommitEnv) (cfg : Config)
    (eol : Option String) (bid : Int) (bp up sr : String)
    (hbp : bp = cfg.build_repo_base_path ++ "/" ++ toString bid)
    (hup : up = bp ++ "/upload") (hsr : sr = "--src-repo=" ++ up) :
    (∀ (pre post : List BuildRef) (r : BuildRef) (lg sd : String),
      env.initRepo bp = .ok () →
      env.initRepo up = .ok () →
      (∀ p ∈ pre, ∃ nc tr0, commitStep env cfg eol bid bp sr p = (.ok nc, tr0)) →
      env.run (commitFromCmd cfg eol bp sr r) = .ok (false, lg, sd) →
      (do_commit_build_refs env bid (pre ++ r :: post) eol cfg).result =
          .err ("Failed to build commit for ref " ++ r.ref_name ++ ": " ++ rustTrim sd) ∧
      (do_commit_build_refs env bid (pre ++ r :: post) eol cfg).uploadDeleted = false ∧
      (do_commit_build_refs env bid (pre ++ r :: post) eol cfg).trace =
          (commitLoop env cfg eol bid bp sr pre []).2 ++ [commitFromCmd cfg eol bp sr r]) ∧
    (∀ refs : List BuildRef,
      (do_commit_build_refs env bid refs eol cfg).uploadDeleted = true →
      (∃ cs, (do_commit_build_refs env bid refs eol cfg).result =
          .ok (Json.obj [("refs", JVal.obj cs)])) ∧
      (∃ lg2 sd2, env.run (updateRepoCmd bp) = .ok (true, lg2, sd2)) ∧
      env.removeDir up = .ok () ∧
      (∀ q ∈ refs, ∃ nc tr0, commitStep env cfg eol bid bp sr q = (.ok nc, tr0))) := by
  constructor
  · intro pre post r lg sd hinit1 hinit2 hpre hfail
    obtain ⟨acc', hsplit⟩ :=
      commitLoop_append_ok env cfg eol bid bp sr pre hpre (r :: post) []
    have hstep := commitStep_fail env cfg eol bid bp sr r lg sd hfail
    have hlc := commitLoop_cons_err env cfg eol bid bp sr r post acc'
      ("Failed to build commit for ref " ++ r.ref_name ++ ": " ++ rustTrim sd)
      [commitFromCmd cfg eol bp sr r] hstep
    rw [hlc] at hsplit
    subst hbp
    subst hup
    subst hsr
    refine ⟨?_, ?_, ?_⟩ <;> simp [do_commit_build_refs, hinit1, hinit2, hsplit]
  · intro refs hdel
    obtain ⟨cs, tr, hloop, hinit1, hinit2, hrun, hrem, heq⟩ :=
      do_commit_success_shape env cfg eol bid refs bp up sr hbp hup hsr (Or.inl hdel)
    refine ⟨⟨cs, by rw [heq]⟩, hrun, hrem, ?_⟩
    intro q hq
    exact (commitLoop_ok_steps env cfg eol bid bp sr refs [] cs tr hloop q hq).1

/-- C7: every per-ref build-commit-from invocation carries the five fixed
flags plus the optional GPG and end-of-life arguments exactly when
configured, and on a successful pipeline run the build-update-repo command
appears exactly once in the trace, after all per-ref commit commands. -/
theorem commit_flags_and_single_update (env : CommitEnv) (cfg : Config)
    (eol : Option String) (bid : Int) (bp up sr : String)
    (hbp : bp = cfg.build_repo_base_path ++ "/" ++ toString bid)
    (hup : up = bp ++ "/upload") (hsr : sr = "--src-repo=" ++ up) :
    (∀ (bp2 sr2 : String) (r : BuildRef),
      "--timestamp=NOW" ∈ (commitFromCmd cfg eol bp2 sr2 r).args ∧
      "--no-update-summary" ∈ (commitFromCmd cfg eol bp2 sr2 r).args ∧
      "--untrusted" ∈ (commitFromCmd cfg eol bp2 sr2 r).args ∧
      "--force" ∈ (commitFromCmd cfg eol bp2 sr2 r).args ∧
      "--disable-fsync" ∈ (commitFromCmd cfg eol bp2 sr2 r).args ∧
      (∀ h, cfg.gpg_homedir = some h →
        ("--gpg-homedir==" ++ h) ∈ (commitFromCmd cfg eol bp2 sr2 r).args) ∧
      (∀ k, cfg.build_gpg_key = some k →
        ("--gpg-sign==" ++ k) ∈ (commitFromCmd cfg eol bp2 sr2 r).args) ∧
      (∀ e2, eol = some e2 →
        ("--end-of-life=" ++ e2) ∈ (commitFromCmd cfg eol bp2 sr2 r).args)) ∧
    (∀ (refs : List BuildRef) (cs : Json),
      (do_commit_build_refs env bid refs eol cfg).result = .ok cs →
      ((do_commit_build_refs env bid refs eol cfg).trace.filter isUpdateRepo).length
          = 1 ∧
      (∃ tr0, (do_commit_build_refs env bid refs eol cfg).trace =
          tr0 ++ [updateRepoCmd bp] ∧
        (∀ c ∈ tr0, isUpdateRepo c = false) ∧
        ∀ q ∈ refs, commitFromCmd cfg eol bp sr q ∈ tr0)) := by
  constructor
  · intro bp2 sr2 r
    refine ⟨by simp [commitFromCmd], by simp [commitFromCmd], by simp [commitFromCmd],
      by simp [commitFromCmd], by simp [commitFromCmd], ?_, ?_, ?_⟩
    · intro h hh
      simp [commitFromCmd, hh]
    · intro k hk
      simp [commitFromCmd, hk]
    · intro e2 he2
      simp [commitFromCmd, he2]
  · intro refs cs hres
    obtain ⟨cs', tr, hloop, _hinit1, _hinit2, _hrun, _hrem, heq⟩ :=
      do_commit_success_shape env cfg eol bid refs bp up sr hbp hup hsr
        (Or.inr ⟨cs, hres⟩)
    have hno : ∀ c ∈ tr, isUpdateRepo c = false := by
      have h2 := commitLoop_no_update env cfg eol bid bp sr refs []
      rw [hloop] at h2
      simpa using h2
    have hfil : tr.filter isUpdateRepo = [] := by
      rw [List.filter_eq_nil_iff]
      intro c hc
      simp [hno c hc]
    have hu : isUpdateRepo (updateRepoCmd bp) = true := by
      simp [isUpdateRepo, updateRepoCmd]
    refine ⟨?_, tr, by rw [heq], hno, ?_⟩
    · rw [heq]
      simp only [List.filter_append, hfil, List.filter_cons, hu]
      simp
    · intro q hq
      exact (commitLoop_ok_steps env cfg eol bid bp sr refs [] cs' tr hloop q hq).2

/-- Witness for C4 at a concrete input: one ref whose commit command exits
non-zero; the pipeline reports the ref name with trimmed stderr and the
upload directory is not deleted. -/
theorem commit_failure_preserves_upload_witness :
    (do_commit_build_refs failRunEnv 42
        [⟨1, 42, 0, "runtime/org.X/x86_64/1.0", "c1"⟩] none sampleConfig).result =
      .err ("Failed to build commit for ref " ++ "runtime/org.X/x86_64/1.0"
        ++ ": " ++ rustTrim "boom\n") ∧
    (do_commit_build_refs failRunEnv 42
        [⟨1, 42, 0, "runtime/org.X/x86_64/1.0", "c1"⟩] none sampleConfig).uploadDeleted
      = false :=
  have h := (commit_failure_preserves_upload failRunEnv sampleConfig none 42
      (sampleConfig.build_repo_base_path ++ "/" ++ toString (42 : Int))
      (sampleConfig.build_repo_base_path ++ "/" ++ toString (42 : Int) ++ "/upload")
      ("--src-repo=" ++ (sampleConfig.build_repo_base_path ++ "/"
        ++ toString (42 : Int) ++ "/upload"))
      rfl rfl rfl).1
    [] [] ⟨1, 42, 0, "runtime/org.X/x86_64/1.0", "c1"⟩ "" "boom\n"
    rfl rfl (by simp) rfl
  ⟨h.1, h.2.1⟩

/-- Witness for C7 at a concrete input: a successful run over one runtime
ref invokes build-update-repo exactly once. -/
theorem commit_flags_and_single_update_witness :
    ((do_commit_build_refs happyEnv 42
        [⟨1, 42, 0, "runtime/org.X/x86_64/1.0", "c1"⟩] none
        sampleConfig).trace.filter isUpdateRepo).length = 1 :=
  ((commit_flags_and_single_update happyEnv sampleConfig none 42
      (sampleConfig.build_repo_base_path ++ "/" ++ toString (42 : Int))
      (sampleConfig.build_repo_base_path ++ "/" ++ toString (42 : Int) ++ "/upload")
      ("--src-repo=" ++ (sampleConfig.build_repo_base_path ++ "/"
        ++ toString (42 : Int) ++ "/upload"))
      rfl rfl rfl).2
    [⟨1, 42, 0, "runtime/org.X/x86_64/1.0", "c1"⟩]
    (Json.obj [("refs", JVal.obj [("runtime/org.X/x86_64/1.0", rustTrim "abc123\n")])])
    rfl).1

/-- C10: for a BuildRef whose ref name starts with `app/` but has fewer
than four '/'-separated components, the flatpakref generation indexes the
split parts at 1 and 3 without a length check and the pipeline panics
(rather than failing with a job error); totality relies on the unstated
precondition that app/ ref names have at least four components. -/
theorem app_ref_short_name_panics :
    (do_commit_build_refs happyEnv 42 [⟨1, 42, 0, "app/org.foo.Bar", "c0"⟩]
        none sampleConfig).result = .panicked ∧
    (∀ (env : CommitEnv) (cfg : Config) (eol : Option String) (bid : Int)
        (bp sr : String) (r : BuildRef) (lg sd commit : String),
      rustStartsWith r.ref_name "app/" = true →
      (rustSplit '/' r.ref_name).length < 4 →
      env.run (commitFromCmd cfg eol bp sr r) = .ok (true, lg, sd) →
      parse_ostree_ref env bp r.ref_name = .ok commit →
      (∀ p, env.createFile p = .ok ()) →
      (commitStep env cfg eol bid bp sr r).1 = .panicked) := by
  constructor
  · decide
  · intro env cfg eol bid bp sr r lg sd commit happ hlen hrun hparse hcreate
    rcases hget1 : (rustSplit '/' r.ref_name)[1]? with _ | p1
    · simp [commitStep, hrun, hparse, happ, hget1]
    · have hget3 : (rustSplit '/' r.ref_name)[3]? = none :=
        List.getElem?_eq_none (by omega)
      simp [commitStep, hrun, hparse, happ, hget1, hcreate, hget3]

/-- Witness for C10's general part at a concrete input:
`app/org.foo.Bar` splits into two components and the step panics. -/
theorem app_ref_short_name_panics_witness :
    (commitStep happyEnv sampleConfig none 42 "bp" "sr"
        ⟨1, 42, 0, "app/org.foo.Bar", "c0"⟩).1 = .panicked :=
  app_ref_short_name_panics.2 happyEnv sampleConfig none 42 "bp" "sr"
    ⟨1, 42, 0, "app/org.foo.Bar", "c0"⟩ "" "" (rustTrim "abc123\n")
    (by decide) (by decide) rfl rfl (fun p => rfl)

/-- C5: an unknown kind or an undecodable payload yields an immediate
failure (message "Unknown job type" for an unresolvable kind) rather than
a panic; the terminal write maps Ok to Ended-with-payload and Err to
Broken-with-message and is applied to every row with the job's id
regardless of that row's prior status; a failed final write leaves the
table unchanged and the handler still returns. -/
theorem executor_terminal_write (env : HandlerEnv) (jobs : List JobRow) (job : JobRow) :
    (JobKind.from_db job.kind = none →
      jobHandlerRes env job = .error "Unknown job type") ∧
    (JobKind.from_db job.kind = some .commit → env.decodeCommit job.contents = none →
      jobHandlerRes env job = .error "Can't parse commit job") ∧
    (JobKind.from_db job.kind = some .publish → env.decodePublish job.contents = none →
      jobHandlerRes env job = .error "Can't parse publish job") ∧
    (∀ v, jobTerminal (.ok v) = (JobStatus.ended.toDb, v)) ∧
    (∀ e, jobTerminal (.error e) = (JobStatus.broken.toDb, Json.str e)) ∧
    (env.updateOk = true → ∀ prior ∈ jobs, prior.id = job.id →
      { prior with status := (jobTerminal (jobHandlerRes env job)).1,
                   results := (jobTerminal (jobHandlerRes env job)).2 }
        ∈ handle_job env jobs job) ∧
    (env.updateOk = true → ∀ prior ∈ jobs, prior.id ≠ job.id →
      prior ∈ handle_job env jobs job) ∧
    (env.updateOk = false → handle_job env jobs job = jobs) := by
  refine ⟨?_, ?_, ?_, fun v => rfl, fun e => rfl, ?_, ?_, ?_⟩
  · intro h
    simp [jobHandlerRes, h]
  · intro h hd
    simp [jobHandlerRes, h, hd]
  · intro h hd
    simp [jobHandlerRes, h, hd]
  · intro hup prior hmem hid
    simp only [handle_job, hup, if_true]
    refine List.mem_map.mpr ⟨prior, hmem, ?_⟩
    rw [if_pos (by simpa using hid)]
  · intro hup prior hmem hid
    simp only [handle_job, hup, if_true]
    refine List.mem_map.mpr ⟨prior, hmem, ?_⟩
    rw [if_neg (by simpa using hid)]
  · intro hup
    simp [handle_job, hup]

/-- Witness for C5 at a concrete input: a job of unknown kind 99 is written
to Broken with results "Unknown job type" regardless of its prior status. -/
theorem executor_terminal_write_witness :
    jobHandlerRes ⟨fun _ => none, fun _ => none, fun _ => .ok Json.null,
        fun _ => .ok Json.null, true⟩ ⟨7, 99, 0, Json.null, Json.null⟩
      = .error "Unknown job type" ∧
    ({ id := 7, kind := 99, status := JobStatus.broken.toDb,
       contents := Json.null, results := Json.str "Unknown job type" } : JobRow)
      ∈ handle_job ⟨fun _ => none, fun _ => none, fun _ => .ok Json.null,
          fun _ => .ok Json.null, true⟩
        [⟨7, 99, 0, Json.null, Json.null⟩] ⟨7, 99, 0, Json.null, Json.null⟩ := by
  have h := executor_terminal_write
    ⟨fun _ => none, fun _ => none, fun _ => .ok Json.null, fun _ => .ok Json.null, true⟩
    [⟨7, 99, 0, Json.null, Json.null⟩] ⟨7, 99, 0, Json.null, Json.null⟩
  refine ⟨h.1 (by decide), ?_⟩
  have h2 := h.2.2.2.2.2.1 rfl ⟨7, 99, 0, Json.null, Json.null⟩ (by simp) rfl
  simpa [h.1 (by decide), jobTerminal] using h2

theorem streamLive_ne_nil (source : CommandOutputSource) (l : List CommandOutput)
    (h : StreamLive source l) : l ≠ [] := by
  cases h <;> simp

theorem streamCount_pos (l : List CommandOutput) (h : l ≠ []) : streamCount l = 1 := by
  cases l with
  | nil => exact absurd rfl h
  | cons a l => rfl

theorem collect_interleave (l1 l2 l : List CommandOutput) (hi : Interleave l1 l2 l)
    (h1 : l1 = [] ∨ StreamLive .stdout l1) (h2 : l2 = [] ∨ StreamLive .stderr l2) :
    collectOutput (streamCount l1 + streamCount l2) l = (dataBytes l, errBytes l) := by
  induction hi with
  | nil => rfl
  | left e l1 l2 l hi ih =>
    rcases h1 with h1 | h1
    · exact absurd h1 (by simp)
    cases h1 with
    | last =>
      have hc : streamCount ([CommandOutput.closed .stdout] : List CommandOutput)
          + streamCount l2 = streamCount l2 + 1 := by
        show 1 + streamCount l2 = streamCount l2 + 1
        omega
      rw [hc]
      show collectOutput (streamCount l2) l = _
      have h0 := ih (Or.inl rfl) h2
      rw [show streamCount ([] : List CommandOutput) + streamCount l2
        = streamCount l2 from by show 0 + streamCount l2 = _; omega] at h0
      rw [h0]
      simp [dataBytes, errBytes]
    | cons chunk rest hrest =>
      have hne := streamLive_ne_nil _ _ hrest
      have hc : streamCount (CommandOutput.data .stdout chunk :: l1)
          + streamCount l2 = (streamCount l1 + streamCount l2 - 1) + 1 := by
        rw [streamCount_pos _ hne]
        show 1 + streamCount l2 = 1 + streamCount l2 - 1 + 1
        omega
      rw [hc]
      show (chunk ++ (collectOutput ((streamCount l1 + streamCount l2 - 1) + 1) l).1,
        if CommandOutputSource.stdout = CommandOutputSource.stderr then
          chunk ++ (collectOutput ((streamCount l1 + streamCount l2 - 1) + 1) l).2
        else (collectOutput ((streamCount l1 + streamCount l2 - 1) + 1) l).2) = _
      have hcc : (streamCount l1 + streamCount l2 - 1) + 1 =
          streamCount l1 + streamCount l2 := by
        rw [streamCount_pos _ hne]
        omega
      rw [hcc, ih (Or.inr hrest) h2]
      simp [dataBytes, errBytes]
  | right e l1 l2 l hi ih =>
    rcases h2 with h2 | h2
    · exact absurd h2 (by simp)
    cases h2 with
    | last =>
      have hc : streamCount l1
          + streamCount ([CommandOutput.closed .stderr] : List CommandOutput)
          = streamCount l1 + 1 := rfl
      rw [hc]
      show collectOutput (streamCount l1) l = _
      have h0 := ih h1 (Or.inl rfl)
      rw [show streamCount l1 + streamCount ([] : List CommandOutput)
        = streamCount l1 from rfl] at h0
      rw [h0]
      simp [dataBytes, errBytes]
    | cons chunk rest hrest =>
      have hne := streamLive_ne_nil _ _ hrest
      have hc : streamCount l1 + streamCount (CommandOutput.data .stderr chunk :: l2)
          = (streamCount l1 + streamCount l2 - 1) + 1 := by
        rw [streamCount_pos _ hne]
        show streamCount l1 + 1 = streamCount l1 + 1 - 1 + 1
        omega
      rw [hc]
      show (chunk ++ (collectOutput ((streamCount l1 + streamCount l2 - 1) + 1) l).1,
        if CommandOutputSource.stderr = CommandOutputSource.stderr then
          chunk ++ (collectOutput ((streamCount l1 + streamCount l2 - 1) + 1) l).2
        else (collectOutput ((streamCount l1 + streamCount l2 - 1) + 1) l).2) = _
      have hcc : (streamCount l1 + streamCount l2 - 1) + 1 =
          streamCount l1 + streamCount l2 := by
        rw [streamCount_pos _ hne]
        omega
      rw [hcc, ih h1 (Or.inr hrest)]
      simp [dataBytes, errBytes]

theorem send_reads_eq (source : CommandOutputSource)
    (reads : List (Except String (List Nat))) (h : hasTerminator reads = true) :
    send_reads source reads = StreamEvents source (readChunks reads) := by
  induction reads with
  | nil => simp [hasTerminator] at h
  | cons r rest ih =>
    cases r with
    | ok chunk =>
      by_cases hc : chunk.isEmpty
      · simp [send_reads, readChunks, hc, StreamEvents]
      · have h2 : hasTerminator rest = true := by
          simpa [hasTerminator, hc] using h
        simp [send_reads, readChunks, hc, StreamEvents, ih h2]
    | error e => simp [send_reads, readChunks, StreamEvents]

theorem streamLive_streamEvents (source : CommandOutputSource)
    (chunks : List (List Nat)) : StreamLive source (StreamEvents source chunks) := by
  induction chunks with
  | nil => exact StreamLive.last
  | cons c cs ih => exact StreamLive.cons c _ ih

/-- C6: the Subprocess Runner's contract: a spawn failure returns an error
carrying the OS error string; `succeeded` is true iff the exit status is
exit code 0; when both reader threads terminate and the channel carries an
arbitrary arrival-order interleaving of their events, the combined log is
the concatenation-by-arrival of every stdout and stderr chunk while the
stderr accumulator collects exactly the stderr chunks, and the call
returns them with the exit status; a read error on a stream closes that
stream (keeping its prior chunks) rather than failing the call. -/
theorem subprocess_runner_contract :
    (∀ (env : RunEnv) (e : String), env.spawn = .error e →
      run_command env = .error ("Can't start command: " ++ e)) ∧
    (∀ status : ExitStatus, status.success = true ↔ status = .exited 0) ∧
    (∀ (env : RunEnv) (status : ExitStatus)
        (reads1 reads2 : List (Except String (List Nat))),
      env.spawn = .ok () → env.waitResult = .ok status →
      hasTerminator reads1 = true → hasTerminator reads2 = true →
      Interleave (send_reads .stdout reads1) (send_reads .stderr reads2) env.events →
      run_command env = .ok (status.success, dataBytes env.events, errBytes env.events)) ∧
    (∀ (source : CommandOutputSource) (oks : List (List Nat)) (e : String)
        (rest : List (Except String (List Nat))),
      (∀ c ∈ oks, c.isEmpty = false) →
      send_reads source (oks.map Except.ok ++ .error e :: rest)
        = StreamEvents source oks) := by
  refine ⟨?_, ?_, ?_, ?_⟩
  · intro env e h
    simp [run_command, h]
  · intro status
    cases status with
    | exited code => simp [ExitStatus.success]
    | signaled sig => simp [ExitStatus.success]
  · intro env status reads1 reads2 hspawn hwait ht1 ht2 hinter
    have hl1 : StreamLive .stdout (send_reads .stdout reads1) := by
      rw [send_reads_eq .stdout reads1 ht1]
      exact streamLive_streamEvents _ _
    have hl2 : StreamLive .stderr (send_reads .stderr reads2) := by
      rw [send_reads_eq .stderr reads2 ht2]
      exact streamLive_streamEvents _ _
    have hcol := collect_interleave _ _ env.events hinter (Or.inr hl1) (Or.inr hl2)
    rw [streamCount_pos _ (streamLive_ne_nil _ _ hl1),
      streamCount_pos _ (streamLive_ne_nil _ _ hl2)] at hcol
    simp [run_command, hspawn, hwait, hcol]
  · intro source oks e rest hne
    induction oks with
    | nil => simp [send_reads, StreamEvents]
    | cons c cs ih =>
      have hc : c.isEmpty = false := hne c (List.mem_cons_self c cs)
      simp only [List.map_cons, List.cons_append, send_reads, hc, Bool.false_eq_true,
        if_false, StreamEvents, List.map_cons, List.cons_append, List.append_eq]
      rw [ih (fun x hx => hne x (List.mem_cons_of_mem c hx))]
      rfl

/-- Witness for C6 at a concrete input: stdout reads one chunk then EOF,
stderr reads one chunk then hits a read error; with the interleaved
arrival order the combined log is both chunks in order, stderr keeps its
chunk, and exit code 0 reports success. -/
theorem subprocess_runner_contract_witness :
    run_command ⟨.ok (),
        [.data .stdout [104], .data .stderr [101], .closed .stdout, .closed .stderr],
        .ok (.exited 0)⟩
      = .ok ((ExitStatus.exited 0).success,
          dataBytes [.data .stdout [104], .data .stderr [101],
            .closed .stdout, .closed .stderr],
          errBytes [.data .stdout [104], .data .stderr [101],
            .closed .stdout, .closed .stderr]) :=
  subprocess_runner_contract.2.2.1
    ⟨.ok (),
      [.data .stdout [104], .data .stderr [101], .closed .stdout, .closed .stderr],
      .ok (.exited 0)⟩
    (.exited 0) [.ok [104], .ok []] [.ok [101], .error "eio"]
    rfl rfl (by decide) (by decide)
    (Interleave.left _ _ _ _ (Interleave.right _ _ _ _
      (Interleave.left _ _ _ _ (Interleave.right _ _ _ _ Interleave.nil))))

theorem runTrace_cons_some (s : SysState) (l : QLabel) (rest : List QLabel)
    (r : SysState × Bool) (h : step s l = some r) :
    runTrace s (l :: rest) = runTrace r.1 rest := by
  show (match step s l with
    | some r => runTrace r.1 rest
    | none => none) = _
  rw [h]

theorem runTrace_cons_none (s : SysState) (l : QLabel) (rest : List QLabel)
    (h : step s l = none) : runTrace s (l :: rest) = none := by
  show (match step s l with
    | some r => runTrace r.1 rest
    | none => none) = _
  rw [h]

theorem kick_stopped (q : QueueState) (h : q.running = false) : kick q = (q, false) := by
  simp [kick, h]

theorem inflight_preserved (s : SysState) (l : QLabel) (s' : SysState) (b : Bool)
    (h : step s l = some (s', b)) (hin : s.inflight = some .processOne)
    (hne : ∀ b2, l ≠ .execEndProcess b2) : s'.inflight = some .processOne := by
  cases l with
  | trigger =>
    simp only [step, Option.some.injEq, Prod.mk.injEq] at h
    rw [← h.1]
    exact hin
  | timer =>
    simp only [step, Option.some.injEq, Prod.mk.injEq] at h
    rw [← h.1]
    exact hin
  | stopReq =>
    simp only [step, Option.some.injEq, Prod.mk.injEq] at h
    rw [← h.1]
    exact hin
  | execStart =>
    simp only [step, hin] at h
    exact Option.noConfusion h
  | execEndProcess b2 => exact absurd rfl (hne b2)
  | execEndStop =>
    simp only [step, hin] at h
    exact Option.noConfusion h

/-- C9: once `running` is false, every enabled step keeps it false and
issues no new Executor invocation (a trigger arriving after the stop is
ignored); an in-flight ProcessOneJob can always run to completion; and in
any executable label sequence from a state with a ProcessOneJob in flight,
the stop request's completion (`execEndStop`, the executor answering
StopJobs) can only occur after that in-flight call has returned. -/
theorem stop_request_halts_dispatch :
    (∀ (s : SysState) (l : QLabel) (s' : SysState) (b : Bool),
      step s l = some (s', b) → s.queue.running = false →
      s'.queue.running = false ∧ b = false) ∧
    (∀ (s : SysState) (b : Bool), s.inflight = some .processOne →
      (step s (.execEndProcess b)).isSome = true) ∧
    (∀ (s : SysState) (t1 t2 : List QLabel), s.inflight = some .processOne →
      (runTrace s (t1 ++ .execEndStop :: t2)).isSome = true →
      ∃ b2, QLabel.execEndProcess b2 ∈ t1) := by
  refine ⟨?_, ?_, ?_⟩
  · intro s l s' b h hrun
    cases l with
    | trigger =>
      simp only [step, kick_stopped s.queue hrun, Option.some.injEq,
        Prod.mk.injEq] at h
      refine ⟨?_, h.2.symm⟩
      rw [← h.1]
      exact hrun
    | timer =>
      simp only [step, kick_stopped s.queue hrun, Option.some.injEq,
        Prod.mk.injEq] at h
      refine ⟨?_, h.2.symm⟩
      rw [← h.1]
      exact hrun
    | stopReq =>
      simp only [step, Option.some.injEq, Prod.mk.injEq] at h
      refine ⟨?_, h.2.symm⟩
      rw [← h.1]
    | execStart =>
      rcases hin : s.inflight with _ | m
      · rcases hm : s.mailbox with _ | ⟨m2, rest⟩
        · simp only [step, hin, hm] at h
          exact Option.noConfusion h
        · simp only [step, hin, hm, Option.some.injEq, Prod.mk.injEq] at h
          refine ⟨?_, h.2.symm⟩
          rw [← h.1]
          exact hrun
      · simp only [step, hin] at h
        exact Option.noConfusion h
    | execEndProcess b2 =>
      rcases hin : s.inflight with _ | m
      · simp only [step, hin] at h
        exact Option.noConfusion h
      · cases m with
        | stopJobs =>
          simp only [step, hin] at h
          exact Option.noConfusion h
        | processOne =>
          simp only [step, hin] at h
          rw [if_neg (by simp [hrun])] at h
          simp only [Option.some.injEq, Prod.mk.injEq] at h
          refine ⟨?_, h.2.symm⟩
          rw [← h.1]
          exact hrun
    | execEndStop =>
      rcases hin : s.inflight with _ | m
      · simp only [step, hin] at h
        exact Option.noConfusion h
      · cases m with
        | processOne =>
          simp only [step, hin] at h
          exact Option.noConfusion h
        | stopJobs =>
          simp only [step, hin, Option.some.injEq, Prod.mk.injEq] at h
          refine ⟨?_, h.2.symm⟩
          rw [← h.1]
          exact hrun
  · intro s b hin
    simp only [step, hin]
    repeat' split <;> simp
  · intro s t1 t2 hin hrun
    induction t1 generalizing s with
    | nil =>
      exfalso
      rw [List.nil_append, runTrace_cons_none s .execEndStop t2 (by simp [step, hin])]
        at hrun
      simp at hrun
    | cons l t1 ih =>
      rw [List.cons_append] at hrun
      rcases hstep : step s l with _ | ⟨s', b⟩
      · rw [runTrace_cons_none s l _ hstep] at hrun
        simp at hrun
      · rw [runTrace_cons_some s l _ (s', b) hstep] at hrun
        by_cases hl : ∃ b2, l = .execEndProcess b2
        · obtain ⟨b2, rfl⟩ := hl
          exact ⟨b2, List.mem_cons_self _ _⟩
        · push_neg at hl
          have hin' := inflight_preserved s l s' b hstep hin hl
          obtain ⟨b2, hmem⟩ := ih s' hin' hrun
          exact ⟨b2, List.mem_cons_of_mem l hmem⟩

/-- Witness for C9 at a concrete run: with a ProcessOneJob in flight and
StopJobs queued behind it (the post-stop state), the stop completion can
be reached only through a trace whose prefix completes the in-flight
call. -/
theorem stop_request_halts_dispatch_witness :
    ∃ b2, QLabel.execEndProcess b2 ∈ [QLabel.execEndProcess true, QLabel.execStart] :=
  stop_request_halts_dispatch.2.2
    ⟨⟨false, true, false⟩, [ExecMsg.stopJobs], some ExecMsg.processOne⟩
    [QLabel.execEndProcess true, QLabel.execStart] [] rfl (by decide)

end FlatManager
